import Mathlib

/-!
Verification of the issues store layer (`src/skill_issues/issues/store.py`).

The store is an append-only, event-sourced issue tracker.  Events are JSON
records with a timestamp `ts`, an event `type` (`created`, `updated`, `note`,
`closed`), an entity `id`, and a type-specific payload.  `load_issues` folds
the merged, timestamp-sorted event stream into a map from issue id to issue
state.  This file gives a shallow embedding of that layer: JSON records become
a Lean structure with optional payload fields (a missing JSON key is `none`),
the Python dict of issues becomes an insertion-ordered association list with
Python-dict insert/lookup semantics, and the file-reading write operations
become pure functions from the current log to `Except` values.
-/

/-- An event record.  Optional fields model JSON keys that may be absent from
the payload (`none` = key absent).  `title` is only read for `created`
events, where the source accesses it unconditionally. -/
structure Event where
  ts : String
  type : String
  id : String
  title : String := ""
  issue_type : Option String := none
  priority : Option Int := none
  description : Option String := none
  depends_on : Option (List String) := none
  blocked_by : Option (List String) := none
  labels : Option (List String) := none
  reason : Option String := none
  content : Option String := none
deriving Repr, DecidableEq

/-- A note attached to an issue: timestamp plus content. -/
structure Note where
  ts : String
  content : String
deriving Repr, DecidableEq

/-- One entry of an issue's update history.  For each mutable field that was
present in the `updated` payload the entry records the `(from, to)` pair;
`none` means the field was absent from the payload and left untouched. -/
structure UpdateRecord where
  ts : String
  reason : Option String := none
  priority : Option (Int × Int) := none
  labels : Option (List String × List String) := none
  depends_on : Option (List String × List String) := none
deriving Repr, DecidableEq

/-- Reconstructed state of a single issue.  `closed_reason` and `closed_at`
are `none` until a `closed` event is applied (the Python dict only gains
those keys then). -/
structure Issue where
  id : String
  title : String
  type : String
  priority : Int
  description : String
  depends_on : List String
  labels : List String
  created : String
  status : String
  notes : List Note
  updates : List UpdateRecord
  closed_reason : Option String := none
  closed_at : Option String := none
deriving Repr, DecidableEq

/-- The issues map: an insertion-ordered association list modelling the
Python dict built by `load_issues`. -/
abbrev IssueMap := List (String × Issue)

/-- Python dict lookup `issues[k]` / `k in issues`: first (and in a dict,
only) binding of the key. -/
def dictFind (m : IssueMap) (k : String) : Option Issue :=
  match m.find? (fun p => p.1 == k) with
  | some p => some p.2
  | none => none

/-- Python dict assignment `issues[k] = v`: replace the binding in place if
the key is present, otherwise append a new binding. -/
def dictInsert (m : IssueMap) (k : String) (v : Issue) : IssueMap :=
  if m.any (fun p => p.1 == k) then
    m.map (fun p => if p.1 == k then (k, v) else p)
  else
    m ++ [(k, v)]

/-- The fresh issue state built by the `created` branch of `load_issues`
(store.py lines 100-115), defaults included. -/
def freshIssue (event : Event) : Issue :=
  { id := event.id
    title := event.title
    type := event.issue_type.getD "task"
    priority := event.priority.getD 2
    description := event.description.getD ""
    depends_on := event.depends_on.getD (event.blocked_by.getD [])
    labels := event.labels.getD []
    created := event.ts
    status := "open"
    notes := []
    updates := [] }

/-- `event.get("depends_on", event.get("blocked_by"))` in the `updated`
branch: the new-name field wins, the legacy name is the fallback. -/
def depValue (event : Event) : Option (List String) :=
  match event.depends_on with
  | some d => some d
  | none => event.blocked_by

/-- The update-history entry built by the `updated` branch: timestamp,
optional reason, and a `(from, to)` pair for each payload-present field. -/
def mkUpdateRecord (issue : Issue) (event : Event) : UpdateRecord :=
  { ts := event.ts
    reason := event.reason
    priority := event.priority.map (fun p => (issue.priority, p))
    labels := event.labels.map (fun lb => (issue.labels, lb))
    depends_on := (depValue event).map (fun d => (issue.depends_on, d)) }

/-- The issue state after the `updated` branch: payload-present fields are
overwritten, absent ones kept, and the update record appended. -/
def applyUpdate (issue : Issue) (event : Event) : Issue :=
  { issue with
    priority := event.priority.getD issue.priority
    labels := event.labels.getD issue.labels
    depends_on := (depValue event).getD issue.depends_on
    updates := issue.updates ++ [mkUpdateRecord issue event] }

/-- One step of the reconstruction fold in `load_issues` (store.py lines
96-143): dispatch on the event type; `updated`, `note` and `closed` are
guarded by `if issue_id in issues`, `created` is not. -/
def applyEvent (issues : IssueMap) (event : Event) : IssueMap :=
  if event.type == "created" then
    dictInsert issues event.id (freshIssue event)
  else if event.type == "updated" then
    match dictFind issues event.id with
    | none => issues
    | some issue => dictInsert issues event.id (applyUpdate issue event)
  else if event.type == "note" then
    match dictFind issues event.id with
    | none => issues
    | some issue =>
        dictInsert issues event.id
          { issue with notes := issue.notes ++ [⟨event.ts, event.content.getD ""⟩] }
  else if event.type == "closed" then
    match dictFind issues event.id with
    | none => issues
    | some issue =>
        dictInsert issues event.id
          { issue with
            status := "closed"
            closed_reason := some (event.reason.getD "")
            closed_at := some event.ts }
  else
    issues

/-- `load_issues`, with the merged event stream as input: fold the events
left to right into the issues map. -/
def load_issues (events : List Event) : IssueMap :=
  events.foldl applyEvent []

-- Basic lemmas about the dict model.

theorem dictFind_insert_self (m : IssueMap) (k : String) (v : Issue) :
    dictFind (dictInsert m k v) k = some v := by
  unfold dictInsert
  by_cases h : m.any (fun p => p.1 == k)
  · simp only [h, if_true]
    induction m with
    | nil => simp at h
    | cons p rest ih =>
        by_cases hp : p.1 == k
        · simp [dictFind, List.find?, hp]
        · have h' : rest.any (fun p => p.1 == k) := by
            simp [List.any_cons, hp] at h
            simpa using h
          have := ih h'
          simpa [dictFind, List.find?, hp] using this
  · simp only [h, if_false]
    induction m with
    | nil => simp [dictFind, List.find?]
    | cons p rest ih =>
        have hp : (p.1 == k) = false := by
          by_contra hc
          simp at hc
          exact absurd (by simp [List.any_cons, hc]) h
        have h' : ¬ rest.any (fun p => p.1 == k) := by
          intro hc
          exact absurd (by simp [List.any_cons, hc]) h
        have := ih h'
        simpa [dictFind, List.find?, hp] using this

theorem dictFind_insert_ne (m : IssueMap) (k : String) (v : Issue) (i : String)
    (hk : k ≠ i) :
    dictFind (dictInsert m k v) i = dictFind m i := by
  unfold dictInsert
  by_cases h : m.any (fun p => p.1 == k)
  · simp only [h, if_true]
    clear h
    induction m with
    | nil => rfl
    | cons p rest ih =>
        by_cases hp : p.1 == k
        · have hpk : p.1 = k := by simpa using hp
          have hki : (k == i) = false := by simpa using hk
          have hpi : (p.1 == i) = false := by simp [hpk]; simpa using hk
          simpa [dictFind, List.find?, hp, hki, hpi] using ih
        · by_cases hpi : p.1 == i
          · simp [dictFind, List.find?, hp, hpi]
          · simpa [dictFind, List.find?, hp, hpi] using ih
  · simp only [h, if_false]
    clear h
    induction m with
    | nil =>
        have hki : (k == i) = false := by simpa using hk
        simp [dictFind, List.find?, hki]
    | cons p rest ih =>
        by_cases hpi : p.1 == i
        · simp [dictFind, List.find?, hpi]
        · simpa [dictFind, List.find?, hpi] using ih

theorem load_issues_append (l1 l2 : List Event) :
    load_issues (l1 ++ l2) = l2.foldl applyEvent (load_issues l1) := by
  simp [load_issues, List.foldl_append]

/-- `applyEvent` on an event whose type is `created` (any map). -/
theorem applyEvent_created (m : IssueMap) (e : Event) (h : e.type = "created") :
    applyEvent m e = dictInsert m e.id (freshIssue e) := by
  simp [applyEvent, h]

/-- `applyEvent` on an `updated` event for an existing id. -/
theorem applyEvent_updated (m : IssueMap) (e : Event) (v : Issue)
    (h : e.type = "updated") (hv : dictFind m e.id = some v) :
    applyEvent m e = dictInsert m e.id (applyUpdate v e) := by
  simp [applyEvent, h, hv]

/-- `applyEvent` on a `note` event for an existing id. -/
theorem applyEvent_note (m : IssueMap) (e : Event) (v : Issue)
    (h : e.type = "note") (hv : dictFind m e.id = some v) :
    applyEvent m e =
      dictInsert m e.id { v with notes := v.notes ++ [⟨e.ts, e.content.getD ""⟩] } := by
  simp [applyEvent, h, hv]

/-- `applyEvent` on a `closed` event for an existing id. -/
theorem applyEvent_closed (m : IssueMap) (e : Event) (v : Issue)
    (h : e.type = "closed") (hv : dictFind m e.id = some v) :
    applyEvent m e =
      dictInsert m e.id
        { v with
          status := "closed"
          closed_reason := some (e.reason.getD "")
          closed_at := some e.ts } := by
  simp [applyEvent, h, hv]

/-- `applyEvent` on an `updated`, `note` or `closed` event whose id is
absent from the map is a no-op. -/
theorem applyEvent_unknown_id (m : IssueMap) (e : Event)
    (h : e.type = "updated" ∨ e.type = "note" ∨ e.type = "closed")
    (hid : dictFind m e.id = none) :
    applyEvent m e = m := by
  rcases h with h | h | h <;> simp [applyEvent, h, hid]

/-- Every step except a `created` event for the id itself keeps a closed
issue closed. -/
theorem applyEvent_keeps_closed (m : IssueMap) (e : Event) (i : String) (v : Issue)
    (hv : dictFind m i = some v) (hc : v.status = "closed")
    (hnc : e.type = "created" → e.id ≠ i) :
    ∃ w, dictFind (applyEvent m e) i = some w ∧ w.status = "closed" := by
  by_cases ht : e.type = "created"
  · rw [applyEvent_created m e ht, dictFind_insert_ne m e.id _ i (hnc ht)]
    exact ⟨v, hv, hc⟩
  by_cases hu : e.type = "updated"
  · cases hfind : dictFind m e.id with
    | none =>
        rw [applyEvent_unknown_id m e (Or.inl hu) hfind]
        exact ⟨v, hv, hc⟩
    | some u =>
        rw [applyEvent_updated m e u hu hfind]
        by_cases hi : e.id = i
        · subst hi
          rw [dictFind_insert_self]
          refine ⟨applyUpdate u e, rfl, ?_⟩
          have : u = v := by rw [hfind] at hv; exact Option.some.inj hv
          subst this
          simpa [applyUpdate] using hc
        · rw [dictFind_insert_ne m e.id _ i hi]
          exact ⟨v, hv, hc⟩
  by_cases hn : e.type = "note"
  · cases hfind : dictFind m e.id with
    | none =>
        rw [applyEvent_unknown_id m e (Or.inr (Or.inl hn)) hfind]
        exact ⟨v, hv, hc⟩
    | some u =>
        rw [applyEvent_note m e u hn hfind]
        by_cases hi : e.id = i
        · subst hi
          rw [dictFind_insert_self]
          refine ⟨_, rfl, ?_⟩
          have : u = v := by rw [hfind] at hv; exact Option.some.inj hv
          subst this
          simpa using hc
        · rw [dictFind_insert_ne m e.id _ i hi]
          exact ⟨v, hv, hc⟩
  by_cases hcl : e.type = "closed"
  · cases hfind : dictFind m e.id with
    | none =>
        rw [applyEvent_unknown_id m e (Or.inr (Or.inr hcl)) hfind]
        exact ⟨v, hv, hc⟩
    | some u =>
        rw [applyEvent_closed m e u hcl hfind]
        by_cases hi : e.id = i
        · subst hi
          rw [dictFind_insert_self]
          exact ⟨_, rfl, rfl⟩
        · rw [dictFind_insert_ne m e.id _ i hi]
          exact ⟨v, hv, hc⟩
  · have : applyEvent m e = m := by
      simp [applyEvent, ht, hu, hn, hcl]
    rw [this]
    exact ⟨v, hv, hc⟩

theorem foldl_keeps_closed (l : List Event) (m : IssueMap) (i : String) (v : Issue)
    (hv : dictFind m i = some v) (hc : v.status = "closed")
    (hl : ∀ e ∈ l, e.type = "created" → e.id ≠ i) :
    ∃ w, dictFind (l.foldl applyEvent m) i = some w ∧ w.status = "closed" := by
  induction l generalizing m v with
  | nil => exact ⟨v, hv, hc⟩
  | cons e rest ih =>
      obtain ⟨w, hw, hwc⟩ :=
        applyEvent_keeps_closed m e i v hv hc (hl e (List.mem_cons_self e rest))
      exact ih (applyEvent m e) w hw hwc
        (fun e' he' => hl e' (List.mem_cons_of_mem e he'))

-- Concrete example events used by counterexamples and witnesses.

def evCreateA : Event :=
  { ts := "2024-01-01T00:00:00Z", type := "created", id := "dp-001", title := "first title" }

def evCloseA : Event :=
  { ts := "2024-01-02T00:00:00Z", type := "closed", id := "dp-001", reason := some "done" }

def evCreateA2 : Event :=
  { ts := "2024-01-03T00:00:00Z", type := "created", id := "dp-001", title := "second title" }

def evCloseA2 : Event :=
  { ts := "2024-01-04T00:00:00Z", type := "closed", id := "dp-001", reason := some "duplicate" }

def evNoteA : Event :=
  { ts := "2024-01-05T00:00:00Z", type := "note", id := "dp-001", content := some "a note" }

/-- The state of `dp-001` after replaying `[evCreateA, evCloseA]`. -/
def closedIssueA : Issue :=
  { id := "dp-001", title := "first title", type := "task", priority := 2,
    description := "", depends_on := [], labels := [],
    created := "2024-01-01T00:00:00Z", status := "closed", notes := [], updates := [],
    closed_reason := some "done", closed_at := some "2024-01-02T00:00:00Z" }

/-- C1 counterexample: replaying two `created` events for the same id does
not yield the state produced by the first one — the second `created`
overwrites the entity (its title becomes the second event's title), so the
second `created` does have an effect, contradicting the claim. -/
theorem c1_counterexample :
    (dictFind (load_issues [evCreateA, evCreateA2]) "dp-001").map Issue.title
        = some "second title" ∧
    (dictFind (load_issues [evCreateA]) "dp-001").map Issue.title
        = some "first title" ∧
    ("second title" : String) ≠ "first title" := by
  refine ⟨rfl, rfl, by decide⟩

/-- C1 amended: the `created` branch of `load_issues` has no existence
guard, so a later `created` event for an id replaces the entity's state
entirely with the fresh state built from that event (last `created` wins);
any state accumulated from earlier events is discarded. -/
theorem c1_amended (l : List Event) (e : Event) (h : e.type = "created") :
    dictFind (load_issues (l ++ [e])) e.id = some (freshIssue e) := by
  rw [load_issues_append]
  simp only [List.foldl_cons, List.foldl_nil]
  rw [applyEvent_created _ e h, dictFind_insert_self]

/-- Witness for C1's amended theorem at a concrete log. -/
theorem c1_amended_witness :
    dictFind (load_issues ([evCreateA, evCloseA] ++ [evCreateA2])) evCreateA2.id
        = some (freshIssue evCreateA2) :=
  c1_amended [evCreateA, evCloseA] evCreateA2 rfl

/-- C6 counterexample: after `created`/`closed` the issue is closed, but a
duplicate `created` event later in the sequence resets its status to open —
so status is not monotonic under replay, contradicting the claim. -/
theorem c6_counterexample :
    (dictFind (load_issues [evCreateA, evCloseA]) "dp-001").map Issue.status
        = some "closed" ∧
    (dictFind (load_issues [evCreateA, evCloseA, evCreateA2]) "dp-001").map Issue.status
        = some "open" := by
  refine ⟨rfl, rfl⟩

/-- C6 amended: once an issue is closed it stays closed under replaying any
further events, provided no later `created` event reuses its id; a
duplicate `created` is the one event type that reopens it (by rebuilding
the entity from scratch). -/
theorem c6_amended (l1 l2 : List Event) (i : String) (v : Issue)
    (h1 : dictFind (load_issues l1) i = some v) (h2 : v.status = "closed")
    (h3 : ∀ e ∈ l2, e.type = "created" → e.id ≠ i) :
    ∃ w, dictFind (load_issues (l1 ++ l2)) i = some w ∧ w.status = "closed" := by
  rw [load_issues_append]
  exact foldl_keeps_closed l2 (load_issues l1) i v h1 h2 h3

/-- Witness for C6's amended theorem at a concrete log. -/
theorem c6_amended_witness :
    ∃ w, dictFind (load_issues ([evCreateA, evCloseA] ++ [evNoteA, evCloseA2])) "dp-001"
        = some w ∧ w.status = "closed" :=
  c6_amended [evCreateA, evCloseA] [evNoteA, evCloseA2] "dp-001"
    { id := "dp-001", title := "first title", type := "task", priority := 2,
      description := "", depends_on := [], labels := [],
      created := "2024-01-01T00:00:00Z", status := "closed", notes := [], updates := [],
      closed_reason := some "done", closed_at := some "2024-01-02T00:00:00Z" }
    rfl rfl (by decide)

/-- C7 counterexample: with two `closed` events for the same id, the
recorded closing reason and timestamp are those of the second `closed`
event, not the first, contradicting the claim. -/
theorem c7_counterexample :
    (dictFind (load_issues [evCreateA, evCloseA, evCloseA2]) "dp-001").map Issue.closed_reason
        = some (some "duplicate") ∧
    (dictFind (load_issues [evCreateA, evCloseA, evCloseA2]) "dp-001").map Issue.closed_at
        = some (some "2024-01-04T00:00:00Z") ∧
    ("duplicate" : String) ≠ "done" := by
  refine ⟨rfl, rfl, by decide⟩

/-- C7 amended: the `closed` branch of `load_issues` has no still-open
guard, so every `closed` event for an existing id sets the status to
closed and overwrites the closing reason and timestamp with its own;
after several `closed` events the recorded reason and timestamp are those
of the last one (the status stays closed either way). -/
theorem c7_amended (l : List Event) (e : Event) (v : Issue)
    (ht : e.type = "closed") (h : dictFind (load_issues l) e.id = some v) :
    dictFind (load_issues (l ++ [e])) e.id =
      some { v with
             status := "closed"
             closed_reason := some (e.reason.getD "")
             closed_at := some e.ts } := by
  rw [load_issues_append]
  simp only [List.foldl_cons, List.foldl_nil]
  rw [applyEvent_closed _ e v ht h, dictFind_insert_self]

/-- Witness for C7's amended theorem at a concrete log. -/
theorem c7_amended_witness :
    dictFind (load_issues ([evCreateA, evCloseA] ++ [evCloseA2])) evCloseA2.id =
      some { id := "dp-001", title := "first title", type := "task", priority := 2,
             description := "", depends_on := [], labels := [],
             created := "2024-01-01T00:00:00Z", status := "closed", notes := [], updates := [],
             closed_reason := some "duplicate", closed_at := some "2024-01-04T00:00:00Z" } :=
  c7_amended [evCreateA, evCloseA] evCloseA2
    { id := "dp-001", title := "first title", type := "task", priority := 2,
      description := "", depends_on := [], labels := [],
      created := "2024-01-01T00:00:00Z", status := "closed", notes := [], updates := [],
      closed_reason := some "done", closed_at := some "2024-01-02T00:00:00Z" }
    rfl rfl

/-- C9: during reconstruction an `updated`, `note` or `closed` event whose
id is absent leaves the whole map unchanged; on an existing entity,
`updated` changes only the payload-present fields among priority, labels
and depends_on plus the update history, and `note` appends exactly one
note and mutates nothing else. -/
theorem c9_reconstruction_frame (m : IssueMap) (e : Event) :
    ((e.type = "updated" ∨ e.type = "note" ∨ e.type = "closed") →
      dictFind m e.id = none → applyEvent m e = m) ∧
    (e.type = "updated" → ∀ v, dictFind m e.id = some v →
      ∃ w, dictFind (applyEvent m e) e.id = some w ∧
        w.id = v.id ∧ w.title = v.title ∧ w.type = v.type ∧
        w.description = v.description ∧ w.created = v.created ∧
        w.status = v.status ∧ w.notes = v.notes ∧
        w.closed_reason = v.closed_reason ∧ w.closed_at = v.closed_at ∧
        (e.priority = none → w.priority = v.priority) ∧
        (∀ p, e.priority = some p → w.priority = p) ∧
        (e.labels = none → w.labels = v.labels) ∧
        (∀ lb, e.labels = some lb → w.labels = lb) ∧
        (depValue e = none → w.depends_on = v.depends_on) ∧
        (∀ d, depValue e = some d → w.depends_on = d) ∧
        w.updates = v.updates ++ [mkUpdateRecord v e]) ∧
    (e.type = "note" → ∀ v, dictFind m e.id = some v →
      ∃ w, dictFind (applyEvent m e) e.id = some w ∧
        w.notes = v.notes ++ [⟨e.ts, e.content.getD ""⟩] ∧
        w.id = v.id ∧ w.title = v.title ∧ w.type = v.type ∧ w.priority = v.priority ∧
        w.description = v.description ∧ w.depends_on = v.depends_on ∧
        w.labels = v.labels ∧ w.created = v.created ∧ w.status = v.status ∧
        w.updates = v.updates ∧ w.closed_reason = v.closed_reason ∧
        w.closed_at = v.closed_at) := by
  refine ⟨fun h hid => applyEvent_unknown_id m e h hid, ?_, ?_⟩
  · intro hu v hv
    rw [applyEvent_updated m e v hu hv, dictFind_insert_self]
    refine ⟨applyUpdate v e, rfl, rfl, rfl, rfl, rfl, rfl, rfl, rfl, rfl, rfl,
      ?_, ?_, ?_, ?_, ?_, ?_, rfl⟩
    · intro h; simp [applyUpdate, h]
    · intro p h; simp [applyUpdate, h]
    · intro h; simp [applyUpdate, h]
    · intro lb h; simp [applyUpdate, h]
    · intro h; simp [applyUpdate, h]
    · intro d h; simp [applyUpdate, h]
  · intro hn v hv
    rw [applyEvent_note m e v hn hv, dictFind_insert_self]
    exact ⟨_, rfl, rfl, rfl, rfl, rfl, rfl, rfl, rfl, rfl, rfl, rfl, rfl, rfl, rfl⟩

/-- Witness for C9 at a concrete input: a `note` event for an id absent
from the empty map is a no-op. -/
theorem c9_reconstruction_frame_witness : applyEvent [] evNoteA = [] :=
  (c9_reconstruction_frame [] evNoteA).1 (Or.inr (Or.inl rfl)) rfl

/-- C10: in `created` and `updated` events the legacy `blocked_by` field is
accepted as an alias for `depends_on`, and when both are present the
`depends_on` value wins (the theorem's precedence conjuncts hold for every
value of `blocked_by`). -/
theorem c10_blocked_by_alias (m : IssueMap) (e : Event) :
    (e.type = "created" →
      (∀ d, e.depends_on = some d →
        ∃ w, dictFind (applyEvent m e) e.id = some w ∧ w.depends_on = d) ∧
      (e.depends_on = none → ∀ b, e.blocked_by = some b →
        ∃ w, dictFind (applyEvent m e) e.id = some w ∧ w.depends_on = b)) ∧
    (e.type = "updated" → ∀ v, dictFind m e.id = some v →
      (∀ d, e.depends_on = some d →
        ∃ w, dictFind (applyEvent m e) e.id = some w ∧ w.depends_on = d) ∧
      (e.depends_on = none → ∀ b, e.blocked_by = some b →
        ∃ w, dictFind (applyEvent m e) e.id = some w ∧ w.depends_on = b)) := by
  constructor
  · intro hc
    rw [applyEvent_created m e hc, dictFind_insert_self]
    constructor
    · intro d hd
      exact ⟨freshIssue e, rfl, by simp [freshIssue, hd]⟩
    · intro hd b hb
      exact ⟨freshIssue e, rfl, by simp [freshIssue, hd, hb]⟩
  · intro hu v hv
    rw [applyEvent_updated m e v hu hv, dictFind_insert_self]
    constructor
    · intro d hd
      exact ⟨applyUpdate v e, rfl, by simp [applyUpdate, depValue, hd]⟩
    · intro hd b hb
      exact ⟨applyUpdate v e, rfl, by simp [applyUpdate, depValue, hd, hb]⟩

def evBothDeps : Event :=
  { ts := "2024-01-06T00:00:00Z", type := "created", id := "dp-002",
    title := "has both fields", depends_on := some ["dp-001"],
    blocked_by := some ["zz-009"] }

/-- Witness for C10 at a concrete input: with both `depends_on` and
`blocked_by` present, the `depends_on` value wins. -/
theorem c10_blocked_by_alias_witness :
    ∃ w, dictFind (applyEvent [] evBothDeps) evBothDeps.id = some w ∧
      w.depends_on = ["dp-001"] :=
  ((c10_blocked_by_alias [] evBothDeps).1 rfl).1 ["dp-001"] rfl

/-- Code-point lexicographic strict comparison of strings, as Python
compares the `ts` sort keys, computed on character lists. -/
def charListLt : List Char → List Char → Bool
  | [], [] => false
  | [], _ :: _ => true
  | _ :: _, [] => false
  | a :: as, b :: bs => if a < b then true else if b < a then false else charListLt as bs

/-- Code-point lexicographic non-strict comparison of strings. -/
def charListLe : List Char → List Char → Bool
  | [], _ => true
  | _ :: _, [] => false
  | a :: as, b :: bs => if a < b then true else if b < a then false else charListLe as bs

theorem charListLt_irrefl (l : List Char) : charListLt l l = false := by
  induction l with
  | nil => rfl
  | cons a as ih => simp [charListLt, lt_irrefl, ih]

theorem charListLe_of_lt (a b : List Char) (h : charListLt a b = true) :
    charListLe a b = true := by
  induction a generalizing b with
  | nil => cases b <;> rfl
  | cons x xs ih =>
      cases b with
      | nil => simp [charListLt] at h
      | cons y ys =>
          by_cases hxy : x < y
          · simp [charListLe, hxy]
          · by_cases hyx : y < x
            · simp [charListLt, hxy, hyx] at h
            · simp [charListLt, hxy, hyx] at h
              simp [charListLe, hxy, hyx, ih ys h]

theorem charListLe_of_not_lt (a b : List Char) (h : charListLt a b = false) :
    charListLe b a = true := by
  induction a generalizing b with
  | nil =>
      cases b with
      | nil => rfl
      | cons y ys => simp [charListLt] at h
  | cons x xs ih =>
      cases b with
      | nil => rfl
      | cons y ys =>
          by_cases hxy : x < y
          · simp [charListLt, hxy] at h
          · by_cases hyx : y < x
            · simp [charListLe, hyx]
            · simp [charListLt, hxy, hyx] at h
              simp [charListLe, hxy, hyx, ih ys h]

theorem charListLe_trans (a b c : List Char) (h1 : charListLe a b = true)
    (h2 : charListLe b c = true) : charListLe a c = true := by
  induction a generalizing b c with
  | nil => rfl
  | cons x xs ih =>
      cases b with
      | nil => simp [charListLe] at h1
      | cons y ys =>
          cases c with
          | nil => simp [charListLe] at h2
          | cons z zs =>
              by_cases hxy : x < y
              · by_cases hyz : y < z
                · simp [charListLe, lt_trans hxy hyz]
                · by_cases hzy : z < y
                  · simp [charListLe, hyz, hzy] at h2
                  · have hyz' : y = z := le_antisymm (le_of_not_lt hzy) (le_of_not_lt hyz)
                    subst hyz'
                    simp [charListLe, hxy]
              · by_cases hyx : y < x
                · simp [charListLe, hxy, hyx] at h1
                · have hxy' : x = y := le_antisymm (le_of_not_lt hyx) (le_of_not_lt hxy)
                  subst hxy'
                  simp [charListLe, hxy, hyx] at h1
                  by_cases hyz : x < z
                  · simp [charListLe, hyz]
                  · by_cases hzy : z < x
                    · simp [charListLe, hyz, hzy] at h2
                    · simp [charListLe, hyz, hzy] at h2
                      simp [charListLe, hyz, hzy, ih ys zs h1 h2]

theorem charListLt_le_trans (a b c : List Char) (h1 : charListLt a b = true)
    (h2 : charListLe b c = true) : charListLt a c = true := by
  induction a generalizing b c with
  | nil =>
      cases b with
      | nil => simp [charListLt] at h1
      | cons y ys =>
          cases c with
          | nil => simp [charListLe] at h2
          | cons z zs => rfl
  | cons x xs ih =>
      cases b with
      | nil => simp [charListLt] at h1
      | cons y ys =>
          cases c with
          | nil => simp [charListLe] at h2
          | cons z zs =>
              by_cases hxy : x < y
              · by_cases hyz : y < z
                · simp [charListLt, lt_trans hxy hyz]
                · by_cases hzy : z < y
                  · simp [charListLe, hyz, hzy] at h2
                  · have hyz' : y = z := le_antisymm (le_of_not_lt hzy) (le_of_not_lt hyz)
                    subst hyz'
                    simp [charListLt, hxy]
              · by_cases hyx : y < x
                · simp [charListLt, hxy, hyx] at h1
                · have hxy' : x = y := le_antisymm (le_of_not_lt hyx) (le_of_not_lt hxy)
                  subst hxy'
                  simp [charListLt, hxy, hyx] at h1
                  by_cases hyz : x < z
                  · simp [charListLt, hyz]
                  · by_cases hzy : z < x
                    · simp [charListLe, hyz, hzy] at h2
                    · simp [charListLe, hyz, hzy] at h2
                      simp [charListLt, hyz, hzy, ih ys zs h1 h2]

/-- Strict order on events by the `ts` sort key. -/
def tsLt (a b : Event) : Bool := charListLt a.ts.data b.ts.data

/-- Non-strict order on events by the `ts` sort key. -/
def tsLe (a b : Event) : Bool := charListLe a.ts.data b.ts.data

/-- One step of a stable insertion into an already sorted accumulator: the
new event is placed before the first strictly later event, hence after
every already-present event with an equal timestamp. -/
def sortInsert (e : Event) : List Event → List Event
  | [] => [e]
  | x :: xs => if tsLt e x then e :: x :: xs else x :: sortInsert e xs

/-- The stable sort by the `ts` key performed by
`all_events.sort(key=lambda e: e.get("ts", ""))`. -/
def stableSortByTs (events : List Event) : List Event :=
  events.foldl (fun acc e => sortInsert e acc) []

/-- `_load_all_events` with the list of discovered files (per-user files in
glob order, then the legacy file) as input: concatenate all records, then
stable-sort by timestamp. -/
def loadAllEvents (files : List (List Event)) : List Event :=
  stableSortByTs files.flatten

theorem sortInsert_perm (e : Event) (l : List Event) :
    List.Perm (sortInsert e l) (e :: l) := by
  induction l with
  | nil => exact List.Perm.refl _
  | cons x xs ih =>
      by_cases h : tsLt e x
      · simp [sortInsert, h]
      · simp only [sortInsert, h, if_false]
        exact (List.Perm.cons x ih).trans (List.Perm.swap e x xs)

theorem sortInsert_sorted (e : Event) (l : List Event)
    (h : List.Pairwise (fun a b => tsLe a b = true) l) :
    List.Pairwise (fun a b => tsLe a b = true) (sortInsert e l) := by
  induction l with
  | nil => simp [sortInsert]
  | cons x xs ih =>
      rw [List.pairwise_cons] at h
      obtain ⟨hx, hxs⟩ := h
      by_cases hlt : tsLt e x
      · simp only [sortInsert]
        rw [if_pos hlt, List.pairwise_cons]
        refine ⟨?_, List.pairwise_cons.mpr ⟨hx, hxs⟩⟩
        intro y hy
        rcases List.mem_cons.mp hy with hy | hy
        · subst hy
          exact charListLe_of_lt _ _ hlt
        · exact charListLe_of_lt _ _ (charListLt_le_trans _ _ _ hlt (hx y hy))
      · simp only [sortInsert]
        rw [if_neg hlt, List.pairwise_cons]
        refine ⟨?_, ih hxs⟩
        intro y hy
        rcases List.mem_cons.mp ((sortInsert_perm e xs).mem_iff.mp hy) with hy | hy
        · subst hy
          exact charListLe_of_not_lt _ _ (Bool.of_not_eq_true hlt)
        · exact hx y hy

theorem sortInsert_filter_ne (e : Event) (l : List Event) (t : String)
    (he : (e.ts == t) = false) :
    (sortInsert e l).filter (fun x => x.ts == t) = l.filter (fun x => x.ts == t) := by
  induction l with
  | nil => simp [sortInsert, List.filter, he]
  | cons x xs ih =>
      by_cases hlt : tsLt e x
      · simp [sortInsert, hlt, List.filter, he]
      · simp only [sortInsert, hlt, if_false]
        cases hx : (x.ts == t) <;> simp [List.filter, hx, ih]

theorem sortInsert_filter_eq (e : Event) (l : List Event) (t : String)
    (he : (e.ts == t) = true)
    (hs : List.Pairwise (fun a b => tsLe a b = true) l) :
    (sortInsert e l).filter (fun x => x.ts == t)
      = l.filter (fun x => x.ts == t) ++ [e] := by
  induction l with
  | nil => simp [sortInsert, List.filter, he]
  | cons x xs ih =>
      rw [List.pairwise_cons] at hs
      obtain ⟨hx, hxs⟩ := hs
      by_cases hlt : tsLt e x
      · have hnone : ∀ y ∈ x :: xs, (y.ts == t) = false := by
          intro y hy
          have hlty : tsLt e y = true := by
            rcases List.mem_cons.mp hy with hy | hy
            · subst hy; exact hlt
            · exact charListLt_le_trans _ _ _ hlt (hx y hy)
          by_contra hc
          have hyt : y.ts = t := by
            have := Bool.of_not_eq_false hc
            exact eq_of_beq this
          have het : e.ts = t := eq_of_beq he
          rw [tsLt, hyt, ← het] at hlty
          rw [charListLt_irrefl] at hlty
          exact Bool.false_ne_true hlty
        have hempty : (x :: xs).filter (fun y => y.ts == t) = [] := by
          rw [List.filter_eq_nil_iff]
          intro y hy
          simp [hnone y hy]
        simp only [sortInsert, hlt, if_true]
        have : (e :: x :: xs).filter (fun y => y.ts == t)
            = e :: (x :: xs).filter (fun y => y.ts == t) := by
          simp [List.filter, he]
        rw [this, hempty]
        rfl
      · simp only [sortInsert, hlt, if_false]
        cases hxt : (x.ts == t) <;> simp [List.filter, hxt, ih hxs]

theorem stableSort_foldl_sorted (l : List Event) (acc : List Event)
    (h : List.Pairwise (fun a b => tsLe a b = true) acc) :
    List.Pairwise (fun a b => tsLe a b = true)
      (l.foldl (fun acc e => sortInsert e acc) acc) := by
  induction l generalizing acc with
  | nil => exact h
  | cons e rest ih => exact ih (sortInsert e acc) (sortInsert_sorted e acc h)

theorem stableSort_foldl_perm (l : List Event) (acc : List Event) :
    List.Perm (l.foldl (fun acc e => sortInsert e acc) acc) (acc ++ l) := by
  induction l generalizing acc with
  | nil => simp
  | cons e rest ih =>
      simp only [List.foldl_cons]
      refine (ih (sortInsert e acc)).trans ?_
      refine (List.Perm.append_right rest (sortInsert_perm e acc)).trans ?_
      exact (@List.perm_middle Event e acc rest).symm

theorem stableSort_foldl_filter (l : List Event) (acc : List Event) (t : String)
    (h : List.Pairwise (fun a b => tsLe a b = true) acc) :
    (l.foldl (fun acc e => sortInsert e acc) acc).filter (fun x => x.ts == t)
      = acc.filter (fun x => x.ts == t) ++ l.filter (fun x => x.ts == t) := by
  induction l generalizing acc with
  | nil => simp
  | cons e rest ih =>
      simp only [List.foldl_cons]
      rw [ih (sortInsert e acc) (sortInsert_sorted e acc h)]
      cases he : (e.ts == t) with
      | false =>
          rw [sortInsert_filter_ne e acc t he]
          simp [List.filter, he]
      | true =>
          rw [sortInsert_filter_eq e acc t he h]
          simp [List.filter, he]

/-- C2: `_load_all_events` returns the concatenation of all files' records
sorted by timestamp ascending with a stable sort: the output is a
permutation of the concatenation, it is pairwise ordered by the timestamp
key (so an event with a strictly smaller timestamp precedes one with a
larger timestamp regardless of source file or file read order), and for
every timestamp value the subsequence of events carrying it is exactly the
one of the concatenation, in the same order (per-file relative order is
kept). -/
theorem c2_merge_sorted_stable (files : List (List Event)) :
    List.Perm (loadAllEvents files) files.flatten ∧
    List.Pairwise (fun a b => tsLe a b = true) (loadAllEvents files) ∧
    ∀ t : String,
      (loadAllEvents files).filter (fun e => e.ts == t)
        = files.flatten.filter (fun e => e.ts == t) := by
  refine ⟨?_, ?_, ?_⟩
  · simpa using stableSort_foldl_perm files.flatten []
  · exact stableSort_foldl_sorted files.flatten [] (List.Pairwise.nil)
  · intro t
    simpa using stableSort_foldl_filter files.flatten [] t (List.Pairwise.nil)

/-- `filter_open`: the open issues, in map order. -/
def filter_open (issues : IssueMap) : IssueMap :=
  issues.filter (fun p => p.2.status == "open")

/-- `set(filter_open(all_issues).keys())` used by `filter_ready`. -/
def open_ids (all_issues : IssueMap) : List String :=
  (filter_open all_issues).map Prod.fst

/-- `filter_ready`: open issues whose dependency set meets no open id. -/
def filter_ready (issues all_issues : IssueMap) : IssueMap :=
  issues.filter (fun p =>
    p.2.status == "open" &&
      (p.2.depends_on.filter (fun d => (open_ids all_issues).contains d)).isEmpty)

theorem mem_open_ids (all_issues : IssueMap) (d : String) :
    d ∈ open_ids all_issues ↔ ∃ w, (d, w) ∈ all_issues ∧ w.status = "open" := by
  unfold open_ids filter_open
  rw [List.mem_map]
  constructor
  · rintro ⟨p, hp, rfl⟩
    rw [List.mem_filter] at hp
    exact ⟨p.2, hp.1, by simpa using hp.2⟩
  · rintro ⟨w, hw, hst⟩
    exact ⟨(d, w), List.mem_filter.mpr ⟨hw, by simpa using hst⟩, rfl⟩

/-- C3: `filter_ready` keeps an issue iff it is open and none of its
dependencies is the id of an open issue in `all_issues`; a dependency on a
closed issue or on an id absent from `all_issues` never blocks. -/
theorem c3_ready_iff (issues all_issues : IssueMap) (k : String) (v : Issue) :
    (k, v) ∈ filter_ready issues all_issues ↔
      ((k, v) ∈ issues ∧ v.status = "open" ∧
        ∀ d ∈ v.depends_on, ∀ w : Issue, (d, w) ∈ all_issues → w.status ≠ "open") := by
  unfold filter_ready
  rw [List.mem_filter]
  simp only [Bool.and_eq_true, beq_iff_eq, List.isEmpty_iff, List.filter_eq_nil_iff]
  constructor
  · rintro ⟨hm, hst, hdeps⟩
    refine ⟨hm, hst, ?_⟩
    intro d hd w hw hop
    have hmem : d ∈ open_ids all_issues := (mem_open_ids all_issues d).mpr ⟨w, hw, hop⟩
    exact (hdeps d hd) (by simpa [List.elem_iff] using hmem)
  · rintro ⟨hm, hst, hdeps⟩
    refine ⟨hm, hst, ?_⟩
    intro d hd hc
    have hmem : d ∈ open_ids all_issues := by simpa [List.elem_iff] using hc
    obtain ⟨w, hw, hop⟩ := (mem_open_ids all_issues d).mp hmem
    exact hdeps d hd w hw hop

def issueA : Issue :=
  { id := "dp-001", title := "A", type := "task", priority := 2, description := "",
    depends_on := ["dp-002"], labels := [], created := "2024-01-01T00:00:00Z",
    status := "open", notes := [], updates := [] }

def issueBClosed : Issue :=
  { id := "dp-002", title := "B", type := "task", priority := 2, description := "",
    depends_on := [], labels := [], created := "2024-01-01T00:00:00Z",
    status := "closed", notes := [], updates := [],
    closed_reason := some "done", closed_at := some "2024-01-02T00:00:00Z" }

def readyExampleMap : IssueMap := [("dp-001", issueA), ("dp-002", issueBClosed)]

/-- Witness for C3 at a concrete input: A depends on closed B, so A is
ready. -/
theorem c3_ready_iff_witness :
    ("dp-001", issueA) ∈ filter_ready readyExampleMap readyExampleMap :=
  (c3_ready_iff readyExampleMap readyExampleMap "dp-001" issueA).mpr
    ⟨by decide, by decide, by
      intro d hd w hw
      have hd' : d = "dp-002" := by simpa [issueA] using hd
      subst hd'
      simp only [readyExampleMap, List.mem_cons, List.mem_singleton,
        Prod.mk.injEq] at hw
      rcases hw with ⟨h1, h2⟩ | ⟨h1, h2⟩ | h1
      · exact absurd h1 (by decide)
      · subst h2; decide
      · exact absurd h1 (List.not_mem_nil _)⟩

/-- The character class `[a-z0-9]` of the new-format id pattern. -/
def isIdChar (c : Char) : Bool := c.isLower || c.isDigit

/-- Split a string at its first dash.  The pattern
`^([a-z0-9]{2,4})-(\d+)$` can only split there, since the character class
of the first group excludes the dash. -/
def splitDash : List Char → Option (List Char × List Char)
  | [] => none
  | c :: cs =>
      if c = '-' then some ([], cs)
      else
        match splitDash cs with
        | none => none
        | some (a, b) => some (c :: a, b)

/-- Decimal value of a digit string, as `int()` computes it. -/
def digitsVal (cs : List Char) : Nat :=
  cs.foldl (fun a c => 10 * a + (c.toNat - 48)) 0

/-- `parse_issue_id` on the character list: new format
`^([a-z0-9]{2,4})-(\d+)$` first, then old format `^(\d+)$`, else
`(None, None)`.  Pattern classes are modelled over ASCII (`\d` as the ASCII
digits); the store's ids are ASCII. -/
def parseIdChars (cs : List Char) : Option String × Option Nat :=
  match splitDash cs with
  | some (p, rest) =>
      if 2 ≤ p.length ∧ p.length ≤ 4 ∧ p.all isIdChar = true ∧
          rest ≠ [] ∧ rest.all Char.isDigit = true then
        (some (String.mk p), some (digitsVal rest))
      else
        (none, none)
  | none =>
      if cs ≠ [] ∧ cs.all Char.isDigit = true then
        (none, some (digitsVal cs))
      else
        (none, none)

/-- `parse_issue_id` (store.py lines 148-167). -/
def parse_issue_id (s : String) : Option String × Option Nat :=
  parseIdChars s.data

/-- The loop body of `next_id`: fold the running maximum over ids whose
parse yields exactly the requested namespace and a number. -/
def maxStep (pfx : String) (m : Nat) (p : String × Issue) : Nat :=
  match parse_issue_id p.1 with
  | (some q, some n) => if q = pfx then max m n else m
  | _ => m

/-- `max_num` as computed by `next_id` (store.py lines 183-188). -/
def maxNum (issues : IssueMap) (pfx : String) : Nat :=
  issues.foldl (maxStep pfx) 0

/-- Little-endian decimal digits with explicit fuel (`fuel ≥ n` suffices). -/
def revDigitsAux (fuel n : Nat) : List Char :=
  match fuel with
  | 0 => []
  | f + 1 => if n = 0 then [] else Nat.digitChar (n % 10) :: revDigitsAux f (n / 10)

/-- Decimal digit string of a natural number. -/
def natDigits (n : Nat) : List Char :=
  if n = 0 then ['0'] else (revDigitsAux n n).reverse

/-- `f"{n:03d}"`: the decimal digits zero-padded on the left to width 3. -/
def pad3 (n : Nat) : List Char :=
  List.replicate (3 - (natDigits n).length) '0' ++ natDigits n

/-- `next_id` (store.py lines 170-190): `f"{prefix}-{max_num + 1:03d}"`. -/
def next_id (issues : IssueMap) (pfx : String) : String :=
  String.mk (pfx.data ++ '-' :: pad3 (maxNum issues pfx + 1))

theorem digitChar_isDigit (m : Nat) (h : m < 10) : (Nat.digitChar m).isDigit = true := by
  interval_cases m <;> decide

theorem digitChar_val (m : Nat) (h : m < 10) : (Nat.digitChar m).toNat - 48 = m := by
  interval_cases m <;> decide

theorem isDigit_ne_dash (c : Char) (h : c.isDigit = true) : c ≠ '-' := by
  intro hc
  subst hc
  exact absurd h (by decide)

theorem isIdChar_ne_dash (c : Char) (h : isIdChar c = true) : c ≠ '-' := by
  intro hc
  subst hc
  exact absurd h (by decide)

theorem revDigitsAux_all_digits (fuel n : Nat) :
    ∀ c ∈ revDigitsAux fuel n, c.isDigit = true := by
  induction fuel generalizing n with
  | zero => intro c hc; simp [revDigitsAux] at hc
  | succ f ih =>
      intro c hc
      by_cases hn : n = 0
      · simp [revDigitsAux, hn] at hc
      · simp only [revDigitsAux, hn, if_false] at hc
        rcases List.mem_cons.mp hc with hc | hc
        · subst hc
          exact digitChar_isDigit _ (Nat.mod_lt n (by decide))
        · exact ih (n / 10) c hc

theorem digitsVal_append (l : List Char) (c : Char) :
    digitsVal (l ++ [c]) = 10 * digitsVal l + (c.toNat - 48) := by
  simp [digitsVal, List.foldl_append]

theorem revDigitsAux_val (fuel n : Nat) (h : n ≤ fuel) :
    digitsVal (revDigitsAux fuel n).reverse = n := by
  induction fuel generalizing n with
  | zero =>
      have : n = 0 := Nat.le_zero.mp h
      subst this
      rfl
  | succ f ih =>
      by_cases hn : n = 0
      · subst hn; rfl
      · simp only [revDigitsAux, hn, if_false, List.reverse_cons]
        rw [digitsVal_append]
        have hdiv : n / 10 ≤ f := by
          have : n / 10 < n := Nat.div_lt_self (Nat.pos_of_ne_zero hn) (by decide)
          omega
        rw [ih (n / 10) hdiv, digitChar_val _ (Nat.mod_lt n (by decide))]
        omega

theorem natDigits_all_digits (n : Nat) : ∀ c ∈ natDigits n, c.isDigit = true := by
  intro c hc
  by_cases hn : n = 0
  · subst hn
    simp [natDigits] at hc
    subst hc
    decide
  · simp only [natDigits, hn, if_false, List.mem_reverse] at hc
    exact revDigitsAux_all_digits n n c hc

theorem natDigits_val (n : Nat) : digitsVal (natDigits n) = n := by
  by_cases hn : n = 0
  · subst hn; rfl
  · simp only [natDigits, hn, if_false]
    exact revDigitsAux_val n n (Nat.le_refl n)

theorem natDigits_ne_nil (n : Nat) : natDigits n ≠ [] := by
  by_cases hn : n = 0
  · subst hn; simp [natDigits]
  · simp only [natDigits, hn, if_false]
    obtain ⟨m, rfl⟩ := Nat.exists_eq_succ_of_ne_zero hn
    simp [revDigitsAux]

theorem digitsVal_replicate_zeros (k : Nat) (s : List Char) :
    digitsVal (List.replicate k '0' ++ s) = digitsVal s := by
  induction k with
  | zero => rfl
  | succ m ih => simpa [digitsVal, List.replicate_succ] using ih

theorem pad3_val (n : Nat) : digitsVal (pad3 n) = n := by
  rw [pad3, digitsVal_replicate_zeros, natDigits_val]

theorem pad3_all_digits (n : Nat) : ∀ c ∈ pad3 n, c.isDigit = true := by
  intro c hc
  rcases List.mem_append.mp hc with hc | hc
  · have := List.eq_of_mem_replicate hc
    subst this
    decide
  · exact natDigits_all_digits n c hc

theorem pad3_ne_nil (n : Nat) : pad3 n ≠ [] := by
  intro h
  rcases List.append_eq_nil.mp h with ⟨_, h2⟩
  exact natDigits_ne_nil n h2

theorem splitDash_append (p rest : List Char) (hp : ∀ c ∈ p, c ≠ '-') :
    splitDash (p ++ '-' :: rest) = some (p, rest) := by
  induction p with
  | nil => simp [splitDash]
  | cons c cs ih =>
      have hc : c ≠ '-' := hp c (List.mem_cons_self c cs)
      have ih' := ih (fun d hd => hp d (List.mem_cons_of_mem c hd))
      simp [splitDash, hc, ih']

theorem parse_mk_id (pfx : String) (N : Nat)
    (h2 : 2 ≤ pfx.data.length) (h4 : pfx.data.length ≤ 4)
    (hall : pfx.data.all isIdChar = true) :
    parse_issue_id (String.mk (pfx.data ++ '-' :: pad3 N)) = (some pfx, some N) := by
  have hnodash : ∀ c ∈ pfx.data, c ≠ '-' := by
    intro c hc
    exact isIdChar_ne_dash c (List.all_eq_true.mp hall c hc)
  show parseIdChars (pfx.data ++ '-' :: pad3 N) = (some pfx, some N)
  unfold parseIdChars
  rw [splitDash_append pfx.data (pad3 N) hnodash]
  dsimp only
  rw [if_pos ⟨h2, h4, hall, pad3_ne_nil N, List.all_eq_true.mpr (pad3_all_digits N)⟩]
  rw [pad3_val]

theorem maxNum_foldl_ge_acc (pfx : String) (l : IssueMap) (acc : Nat) :
    acc ≤ l.foldl (maxStep pfx) acc := by
  induction l generalizing acc with
  | nil => exact Nat.le_refl acc
  | cons p rest ih =>
      refine Nat.le_trans ?_ (ih (maxStep pfx acc p))
      unfold maxStep
      cases hp : parse_issue_id p.1 with
      | mk o1 o2 =>
          cases o1 with
          | none => cases o2 <;> simp
          | some q =>
              cases o2 with
              | none => simp
              | some n =>
                  by_cases hq : q = pfx <;> simp [hq, Nat.le_max_left]

theorem maxNum_foldl_le (pfx : String) (l : IssueMap) (acc : Nat) :
    ∀ p ∈ l, ∀ n, parse_issue_id p.1 = (some pfx, some n) →
      n ≤ l.foldl (maxStep pfx) acc := by
  induction l generalizing acc with
  | nil => intro p hp; simp at hp
  | cons q rest ih =>
      intro p hp n hn
      rcases List.mem_cons.mp hp with hp | hp
      · subst hp
        have hstep : maxStep pfx acc p = max acc n := by
          unfold maxStep
          rw [hn]
          simp
        refine Nat.le_trans ?_ (maxNum_foldl_ge_acc pfx rest (maxStep pfx acc p))
        rw [hstep]
        exact Nat.le_max_right acc n
      · exact ih (maxStep pfx acc q) p hp n hn

theorem maxNum_foldl_achieved (pfx : String) (l : IssueMap) (acc : Nat) :
    l.foldl (maxStep pfx) acc = acc ∨
      ∃ p ∈ l, parse_issue_id p.1 = (some pfx, some (l.foldl (maxStep pfx) acc)) := by
  induction l generalizing acc with
  | nil => exact Or.inl rfl
  | cons q rest ih =>
      have hacc : maxStep pfx acc q = acc ∨
          parse_issue_id q.1 = (some pfx, some (maxStep pfx acc q)) := by
        cases hp : parse_issue_id q.1 with
        | mk o1 o2 =>
            cases o1 with
            | none =>
                cases o2 <;> exact Or.inl (by unfold maxStep; rw [hp])
            | some r =>
                cases o2 with
                | none => exact Or.inl (by unfold maxStep; rw [hp])
                | some n =>
                    have hstep : maxStep pfx acc q = if r = pfx then max acc n else acc := by
                      unfold maxStep
                      rw [hp]
                    by_cases hr : r = pfx
                    · subst hr
                      rw [hstep, if_pos rfl]
                      rcases Nat.le_total acc n with h | h
                      · exact Or.inr (by rw [Nat.max_eq_right h])
                      · exact Or.inl (Nat.max_eq_left h)
                    · exact Or.inl (by rw [hstep, if_neg hr])
      rcases ih (maxStep pfx acc q) with h | ⟨p, hp, hparse⟩
      · simp only [List.foldl_cons, h]
        rcases hacc with h2 | h2
        · exact Or.inl h2
        · exact Or.inr ⟨q, List.mem_cons_self q rest, h2⟩
      · exact Or.inr ⟨p, List.mem_cons_of_mem q hp, hparse⟩

/-- C4: `next_id` returns `<pfx>-<N>` zero-padded to 3 digits with
N = (maximum N' over map ids parsing as `<pfx>-<N'>` for that exact
namespace) + 1, starting at 1 when no such id exists; ids under other
namespaces or in the legacy format never contribute to the maximum, gaps
are not backfilled (N is max + 1, not the lowest unused), and the returned
id is never already a key of the map. -/
theorem c4_next_id (issues : IssueMap) (pfx : String)
    (h2 : 2 ≤ pfx.data.length) (h4 : pfx.data.length ≤ 4)
    (hall : pfx.data.all isIdChar = true) :
    next_id issues pfx = String.mk (pfx.data ++ '-' :: pad3 (maxNum issues pfx + 1)) ∧
    parse_issue_id (next_id issues pfx) = (some pfx, some (maxNum issues pfx + 1)) ∧
    (∀ p ∈ issues, ∀ n, parse_issue_id p.1 = (some pfx, some n) →
      n ≤ maxNum issues pfx) ∧
    (maxNum issues pfx = 0 ∨
      ∃ p ∈ issues, parse_issue_id p.1 = (some pfx, some (maxNum issues pfx))) ∧
    (∀ v : Issue, (next_id issues pfx, v) ∉ issues) := by
  have hparse : parse_issue_id (next_id issues pfx)
      = (some pfx, some (maxNum issues pfx + 1)) :=
    parse_mk_id pfx (maxNum issues pfx + 1) h2 h4 hall
  have hle : ∀ p ∈ issues, ∀ n, parse_issue_id p.1 = (some pfx, some n) →
      n ≤ maxNum issues pfx :=
    fun p hp n hn => maxNum_foldl_le pfx issues 0 p hp n hn
  refine ⟨rfl, hparse, hle, maxNum_foldl_achieved pfx issues 0, ?_⟩
  intro v hv
  have := hle (next_id issues pfx, v) hv (maxNum issues pfx + 1) hparse
  omega

def issueStub (i : String) : Issue :=
  { id := i, title := "stub", type := "task", priority := 2, description := "",
    depends_on := [], labels := [], created := "2024-01-01T00:00:00Z",
    status := "open", notes := [], updates := [] }

def nextIdExampleMap : IssueMap :=
  [("dp-001", issueStub "dp-001"), ("dp-005", issueStub "dp-005"),
   ("jb-002", issueStub "jb-002"), ("088", issueStub "088")]

/-- Witness for C4 at a concrete input: with `dp-001`, `dp-005`, `jb-002`
and legacy `088` present, the next `dp` id parses back as `dp` number
`maxNum + 1` (= 6) and is fresh. -/
theorem c4_next_id_witness :
    parse_issue_id (next_id nextIdExampleMap "dp")
      = (some "dp", some (maxNum nextIdExampleMap "dp" + 1)) ∧
    ∀ v : Issue, (next_id nextIdExampleMap "dp", v) ∉ nextIdExampleMap := by
  have h := c4_next_id nextIdExampleMap "dp" (by decide) (by decide) (by decide)
  exact ⟨h.2.1, h.2.2.2.2⟩

/-- `deps & set(display_issues.keys()) & remaining` for one issue in the
leveling loop of `generate_ascii_diagram`. -/
def depsRemaining (display : IssueMap) (remaining : List String) (i : String) :
    List String :=
  match dictFind display i with
  | none => []
  | some v =>
      v.depends_on.filter (fun d =>
        (display.map Prod.fst).contains d && remaining.contains d)

/-- `at_this_depth`: the ids assigned in the current pass. -/
def levelNow (display : IssueMap) (remaining : List String) : List String :=
  remaining.filter (fun i => (depsRemaining display remaining i).isEmpty)

/-- `remaining -= at_this_depth`: the ids kept for the next pass. -/
def levelKeep (display : IssueMap) (remaining : List String) : List String :=
  remaining.filter (fun i => !(depsRemaining display remaining i).isEmpty)

/-- The leveling loop (store.py lines 443-456), with the iteration budget
as structural fuel: returns the assigned `(id, depth)` pairs, the ids
still unassigned on exit, and the final value of the depth counter. -/
def levelLoop (display : IssueMap) :
    Nat → List String → Nat → List (String × Nat) × List String × Nat
  | 0, remaining, depth => ([], remaining, depth)
  | fuel + 1, remaining, depth =>
      if remaining.isEmpty then ([], remaining, depth)
      else
        let r := levelLoop display fuel (levelKeep display remaining) (depth + 1)
        ((levelNow display remaining).map (fun i => (i, depth)) ++ r.1, r.2.1, r.2.2)

/-- The loop of `generate_ascii_diagram` run as the code runs it: budget
`len(remaining) + 1`, starting from all displayed keys at depth 0. -/
def levelResult (display : IssueMap) :
    List (String × Nat) × List String × Nat :=
  levelLoop display (display.length + 1) (display.map Prod.fst) 0

/-- The ids still unassigned after the budget is exhausted (the cycle
fallback input, store.py lines 459-460). -/
def cycleLeftover (display : IssueMap) : List String := (levelResult display).2.1

/-- The depth counter value at loop exit, used for the cycle bucket. -/
def finalDepth (display : IssueMap) : Nat := (levelResult display).2.2

/-- The full depth assignment: loop output plus the cycle fallback that
puts every leftover id at the final depth. -/
def calcDepths (display : IssueMap) : List (String × Nat) :=
  (levelResult display).1 ++ (cycleLeftover display).map (fun i => (i, finalDepth display))

theorem levelLoop_succ_empty (display : IssueMap) (f : Nat) (remaining : List String)
    (depth : Nat) (hr : remaining.isEmpty = true) :
    levelLoop display (f + 1) remaining depth = ([], remaining, depth) := by
  simp [levelLoop, hr]

theorem levelLoop_succ_step (display : IssueMap) (f : Nat) (remaining : List String)
    (depth : Nat) (hr : remaining.isEmpty = false) :
    levelLoop display (f + 1) remaining depth =
      ((levelNow display remaining).map (fun i => (i, depth))
          ++ (levelLoop display f (levelKeep display remaining) (depth + 1)).1,
        (levelLoop display f (levelKeep display remaining) (depth + 1)).2.1,
        (levelLoop display f (levelKeep display remaining) (depth + 1)).2.2) := by
  simp [levelLoop, hr]

theorem map_fst_pair (l : List String) (d : Nat) :
    (l.map (fun i => (i, d))).map Prod.fst = l := by
  induction l with
  | nil => rfl
  | cons x xs ih => simp only [List.map_cons, ih]

theorem levelLoop_cover (display : IssueMap) (fuel : Nat) :
    ∀ remaining depth,
      List.Perm
        ((levelLoop display fuel remaining depth).1.map Prod.fst
          ++ (levelLoop display fuel remaining depth).2.1)
        remaining := by
  induction fuel with
  | zero => intro remaining depth; simp [levelLoop]
  | succ f ih =>
      intro remaining depth
      cases hr : remaining.isEmpty with
      | true => simp [levelLoop_succ_empty display f remaining depth hr]
      | false =>
          rw [levelLoop_succ_step display f remaining depth hr]
          simp only [List.map_append, map_fst_pair, List.append_assoc]
          refine List.Perm.trans (List.Perm.append_left (levelNow display remaining)
            (ih (levelKeep display remaining) (depth + 1))) ?_
          exact List.filter_append_perm _ remaining

theorem levelLoop_depths (display : IssueMap) (fuel : Nat) :
    ∀ remaining depth,
      depth ≤ (levelLoop display fuel remaining depth).2.2 ∧
      ∀ pr ∈ (levelLoop display fuel remaining depth).1,
        pr.2 < (levelLoop display fuel remaining depth).2.2 := by
  induction fuel with
  | zero =>
      intro remaining depth
      exact ⟨Nat.le_refl depth, by simp [levelLoop]⟩
  | succ f ih =>
      intro remaining depth
      cases hr : remaining.isEmpty with
      | true =>
          rw [levelLoop_succ_empty display f remaining depth hr]
          exact ⟨Nat.le_refl depth, by simp⟩
      | false =>
          obtain ⟨hle, hmem⟩ := ih (levelKeep display remaining) (depth + 1)
          rw [levelLoop_succ_step display f remaining depth hr]
          constructor
          · exact Nat.le_trans (Nat.le_succ depth) hle
          · intro pr hpr
            rcases List.mem_append.mp hpr with hpr | hpr
            · obtain ⟨i, _, rfl⟩ := List.mem_map.mp hpr
              exact lt_of_lt_of_le (Nat.lt_succ_self depth) hle
            · exact hmem pr hpr

theorem levelLoop_fix (display : IssueMap) (fuel : Nat) :
    ∀ remaining depth, levelKeep display remaining = remaining →
      (levelLoop display fuel remaining depth).2.1 = remaining := by
  induction fuel with
  | zero => intro remaining depth _; rfl
  | succ f ih =>
      intro remaining depth hfix
      cases hr : remaining.isEmpty with
      | true => rw [levelLoop_succ_empty display f remaining depth hr]
      | false =>
          rw [levelLoop_succ_step display f remaining depth hr]
          rw [hfix]
          exact ih remaining (depth + 1) hfix

theorem levelLoop_leftover_fix (display : IssueMap) (fuel : Nat) :
    ∀ remaining depth, remaining.length + 1 ≤ fuel →
      levelKeep display (levelLoop display fuel remaining depth).2.1
        = (levelLoop display fuel remaining depth).2.1 := by
  induction fuel with
  | zero => intro remaining depth h; omega
  | succ f ih =>
      intro remaining depth hlen
      cases hr : remaining.isEmpty with
      | true =>
          rw [levelLoop_succ_empty display f remaining depth hr]
          rw [List.isEmpty_iff.mp hr]
          rfl
      | false =>
          rw [levelLoop_succ_step display f remaining depth hr]
          by_cases hfix : levelKeep display remaining = remaining
          · rw [hfix]
            rw [levelLoop_fix display f remaining (depth + 1) hfix]
            exact hfix
          · have hsub : List.Sublist (levelKeep display remaining) remaining :=
              List.filter_sublist remaining
            have hlt : (levelKeep display remaining).length < remaining.length :=
              Nat.lt_of_le_of_ne hsub.length_le (fun heq => hfix (hsub.eq_of_length heq))
            exact ih (levelKeep display remaining) (depth + 1) (by omega)

/-- C5: the depth-leveling loop of `generate_ascii_diagram` (with its
iteration budget of `number of displayed issues + 1`) assigns every
displayed issue exactly one depth: the keys of the produced assignment are
a permutation of the displayed keys; every id left unassigned when the
budget is exhausted is placed at the single final depth bucket, which lies
strictly beyond every depth assigned by the loop; and every such leftover
id still has a displayed dependency among the leftover ids (it belongs to
a dependency cycle within the displayed set). -/
theorem c5_depth_leveling (display : IssueMap) :
    List.Perm ((calcDepths display).map Prod.fst) (display.map Prod.fst) ∧
    (∀ i ∈ cycleLeftover display, (i, finalDepth display) ∈ calcDepths display) ∧
    (∀ pr ∈ (levelResult display).1, pr.2 < finalDepth display) ∧
    (∀ i ∈ cycleLeftover display,
      depsRemaining display (cycleLeftover display) i ≠ []) := by
  refine ⟨?_, ?_, ?_, ?_⟩
  · unfold calcDepths cycleLeftover finalDepth
    simp only [List.map_append, map_fst_pair]
    exact levelLoop_cover display (display.length + 1) (display.map Prod.fst) 0
  · intro i hi
    unfold calcDepths
    refine List.mem_append.mpr (Or.inr ?_)
    exact List.mem_map.mpr ⟨i, hi, rfl⟩
  · intro pr hpr
    exact (levelLoop_depths display (display.length + 1) (display.map Prod.fst) 0).2 pr hpr
  · intro i hi
    have hfix : levelKeep display (cycleLeftover display) = cycleLeftover display := by
      unfold cycleLeftover levelResult
      refine levelLoop_leftover_fix display (display.length + 1) (display.map Prod.fst) 0 ?_
      rw [List.length_map]
    have hall := List.filter_eq_self.mp hfix i hi
    intro hnil
    rw [hnil] at hall
    simp at hall

def issueX : Issue :=
  { id := "dp-001", title := "X", type := "task", priority := 2, description := "",
    depends_on := ["dp-002"], labels := [], created := "2024-01-01T00:00:00Z",
    status := "open", notes := [], updates := [] }

def issueY : Issue :=
  { id := "dp-002", title := "Y", type := "task", priority := 2, description := "",
    depends_on := ["dp-001"], labels := [], created := "2024-01-01T00:00:00Z",
    status := "open", notes := [], updates := [] }

def cycleExampleMap : IssueMap := [("dp-001", issueX), ("dp-002", issueY)]

/-- Witness for C5 at a concrete input: the mutual cycle X depends on Y and Y
depends on X leaves both unassigned by the loop, and both land together in
the one final depth bucket. -/
theorem c5_depth_leveling_witness :
    ("dp-001", finalDepth cycleExampleMap) ∈ calcDepths cycleExampleMap ∧
    ("dp-002", finalDepth cycleExampleMap) ∈ calcDepths cycleExampleMap :=
  ⟨(c5_depth_leveling cycleExampleMap).2.1 "dp-001" (by decide),
   (c5_depth_leveling cycleExampleMap).2.1 "dp-002" (by decide)⟩

/-- Stable insertion into a string list sorted code-point lexicographically. -/
def insertStr (s : String) : List String → List String
  | [] => [s]
  | x :: xs => if charListLt s.data x.data then s :: x :: xs else x :: insertStr s xs

/-- `sorted(...)` over strings. -/
def sortStrs (l : List String) : List String :=
  l.foldl (fun acc s => insertStr s acc) []

/-- `close_issue` (store.py lines 254-270) as a pure function of the
current merged log, with the timestamp a parameter (`get_timestamp()` in
the source).  A raised `ValueError` is an `Except.error`; the source
raises before `append_event` is reached, so an error mutates nothing. -/
def close_issue (log : List Event) (ts issue_id reason : String) :
    Except String (List Event) :=
  match dictFind (load_issues log) issue_id with
  | none => Except.error ("Issue " ++ issue_id ++ " not found")
  | some v =>
      if v.status == "closed" then
        Except.error ("Issue " ++ issue_id ++ " is already closed")
      else
        Except.ok (log ++ [{ ts := ts, type := "closed", id := issue_id,
                             reason := some reason }])

/-- `add_dependency` (store.py lines 290-322) as a pure function of the
current merged log: validate the issue exists and is open, each requested
dependency exists, and at least one is genuinely new; then append one
`updated` event carrying the sorted union of the dependency sets. -/
def add_dependency (log : List Event) (ts issue_id : String) (dep_ids : List String) :
    Except String (List Event × List String) :=
  match dictFind (load_issues log) issue_id with
  | none => Except.error ("Issue " ++ issue_id ++ " not found")
  | some v =>
      if v.status == "closed" then
        Except.error ("Issue " ++ issue_id ++ " is already closed")
      else
        match dep_ids.find? (fun d => (dictFind (load_issues log) d).isNone) with
        | some d => Except.error ("Dependency issue " ++ d ++ " not found")
        | none =>
            if ((dep_ids.filter (fun d => !v.depends_on.contains d)).dedup).isEmpty then
              Except.error ("Issue " ++ issue_id ++ " already depends on the given ids")
            else
              Except.ok
                (log ++ [{ ts := ts, type := "updated", id := issue_id,
                           depends_on := some (sortStrs (v.depends_on ++ dep_ids).dedup),
                           reason := some ("Added dependencies: " ++ String.intercalate ", "
                             (sortStrs ((dep_ids.filter
                               (fun d => !v.depends_on.contains d)).dedup))) }],
                 sortStrs ((dep_ids.filter (fun d => !v.depends_on.contains d)).dedup))

theorem close_issue_error_iff (log : List Event) (ts i r : String) :
    (∃ msg, close_issue log ts i r = Except.error msg) ↔
      (dictFind (load_issues log) i = none ∨
        ∃ v, dictFind (load_issues log) i = some v ∧ v.status = "closed") := by
  unfold close_issue
  cases hfind : dictFind (load_issues log) i with
  | none =>
      constructor
      · intro _; exact Or.inl rfl
      · intro _; exact ⟨"Issue " ++ i ++ " not found", rfl⟩
  | some v =>
      dsimp only
      by_cases hst : v.status = "closed"
      · rw [if_pos (beq_iff_eq.mpr hst)]
        constructor
        · intro _; exact Or.inr ⟨v, rfl, hst⟩
        · intro _; exact ⟨"Issue " ++ i ++ " is already closed", rfl⟩
      · rw [if_neg (fun hc => hst (eq_of_beq hc))]
        constructor
        · rintro ⟨msg, hmsg⟩; cases hmsg
        · rintro (hnone | ⟨w, hw, hwst⟩)
          · cases hnone
          · cases hw
            exact absurd hwst hst

theorem close_issue_ok (log : List Event) (ts i r : String) (log' : List Event)
    (h : close_issue log ts i r = Except.ok log') :
    log' = log ++ [{ ts := ts, type := "closed", id := i, reason := some r }] := by
  unfold close_issue at h
  cases hfind : dictFind (load_issues log) i with
  | none => rw [hfind] at h; cases h
  | some v =>
      rw [hfind] at h
      dsimp only at h
      by_cases hst : v.status == "closed"
      · rw [if_pos hst] at h; cases h
      · rw [if_neg hst] at h
        cases h
        rfl

theorem add_dependency_error_iff (log : List Event) (ts i : String)
    (deps : List String) :
    (∃ msg, add_dependency log ts i deps = Except.error msg) ↔
      (dictFind (load_issues log) i = none ∨
        (∃ v, dictFind (load_issues log) i = some v ∧ v.status = "closed") ∨
        (∃ d ∈ deps, dictFind (load_issues log) d = none) ∨
        (∃ v, dictFind (load_issues log) i = some v ∧
          ∀ d ∈ deps, d ∈ v.depends_on)) := by
  unfold add_dependency
  cases hfind : dictFind (load_issues log) i with
  | none =>
      constructor
      · intro _; exact Or.inl rfl
      · intro _; exact ⟨"Issue " ++ i ++ " not found", rfl⟩
  | some v =>
      dsimp only
      by_cases hst : v.status = "closed"
      · rw [if_pos (beq_iff_eq.mpr hst)]
        constructor
        · intro _; exact Or.inr (Or.inl ⟨v, rfl, hst⟩)
        · intro _; exact ⟨"Issue " ++ i ++ " is already closed", rfl⟩
      · rw [if_neg (fun hc => hst (eq_of_beq hc))]
        cases hf : deps.find? (fun d => (dictFind (load_issues log) d).isNone) with
        | some d =>
            constructor
            · intro _
              refine Or.inr (Or.inr (Or.inl ⟨d, List.mem_of_find?_eq_some hf, ?_⟩))
              have := List.find?_some hf
              exact Option.isNone_iff_eq_none.mp this
            · intro _; exact ⟨"Dependency issue " ++ d ++ " not found", rfl⟩
        | none =>
            dsimp only
            have hall : ∀ d ∈ deps, dictFind (load_issues log) d ≠ none := by
              intro d hd hc
              have := List.find?_eq_none.mp hf d hd
              rw [hc] at this
              exact this rfl
            by_cases hadd : ((deps.filter (fun d => !v.depends_on.contains d)).dedup).isEmpty
            · rw [if_pos hadd]
              constructor
              · intro _
                refine Or.inr (Or.inr (Or.inr ⟨v, rfl, ?_⟩))
                intro d hd
                have hdedup : (deps.filter (fun d => !v.depends_on.contains d)).dedup = [] :=
                  List.isEmpty_iff.mp hadd
                have hfilter : deps.filter (fun d => !v.depends_on.contains d) = [] :=
                  (List.dedup_eq_nil _).mp hdedup
                have := List.filter_eq_nil_iff.mp hfilter d hd
                have hcon : v.depends_on.contains d = true := by
                  cases hcc : v.depends_on.contains d with
                  | true => rfl
                  | false => exact absurd (by rw [hcc]; rfl) this
                exact List.elem_iff.mp hcon
              · intro _
                exact ⟨"Issue " ++ i ++ " already depends on the given ids", rfl⟩
            · rw [if_neg hadd]
              constructor
              · rintro ⟨msg, hmsg⟩; cases hmsg
              · rintro (hnone | ⟨w, hw, hwst⟩ | ⟨d, hd, hdn⟩ | ⟨w, hw, hwdeps⟩)
                · cases hnone
                · cases hw
                  exact absurd hwst hst
                · exact absurd hdn (hall d hd)
                · cases hw
                  refine absurd ?_ hadd
                  have hfilter : deps.filter (fun d => !v.depends_on.contains d) = [] := by
                    rw [List.filter_eq_nil_iff]
                    intro d hd
                    have hcon : v.depends_on.contains d = true :=
                      List.elem_iff.mpr (hwdeps d hd)
                    rw [hcon]
                    decide
                  rw [hfilter]
                  rfl

theorem add_dependency_ok (log : List Event) (ts i : String) (deps : List String)
    (log' : List Event) (added : List String)
    (h : add_dependency log ts i deps = Except.ok (log', added)) :
    ∃ e : Event, log' = log ++ [e] ∧ e.type = "updated" ∧ e.id = i ∧ e.ts = ts ∧
      (∃ ds, e.depends_on = some ds) := by
  unfold add_dependency at h
  cases hfind : dictFind (load_issues log) i with
  | none => rw [hfind] at h; cases h
  | some v =>
      rw [hfind] at h
      dsimp only at h
      by_cases hst : v.status == "closed"
      · rw [if_pos hst] at h; cases h
      · rw [if_neg hst] at h
        cases hf : deps.find? (fun d => (dictFind (load_issues log) d).isNone) with
        | some d => rw [hf] at h; cases h
        | none =>
            rw [hf] at h
            dsimp only at h
            by_cases hadd : ((deps.filter (fun d => !v.depends_on.contains d)).dedup).isEmpty
            · rw [if_pos hadd] at h; cases h
            · rw [if_neg hadd] at h
              cases h
              exact ⟨_, rfl, rfl, rfl, rfl, ⟨_, rfl⟩⟩

/-- C8: write operations validate against freshly reconstructed state
before appending and append nothing on failure: `close_issue` errors iff
the issue is missing or already closed, `add_dependency` errors iff the
issue is missing or closed, some requested dependency id is missing, or
no new dependency would be added; and every successful call returns the
input log with exactly one event appended (an error returns no log at
all — the source raises before `append_event` runs). -/
theorem c8_write_validation (log : List Event) (ts i r : String)
    (deps : List String) :
    ((∃ msg, close_issue log ts i r = Except.error msg) ↔
      (dictFind (load_issues log) i = none ∨
        ∃ v, dictFind (load_issues log) i = some v ∧ v.status = "closed")) ∧
    (∀ log', close_issue log ts i r = Except.ok log' →
      log' = log ++ [{ ts := ts, type := "closed", id := i, reason := some r }]) ∧
    ((∃ msg, add_dependency log ts i deps = Except.error msg) ↔
      (dictFind (load_issues log) i = none ∨
        (∃ v, dictFind (load_issues log) i = some v ∧ v.status = "closed") ∨
        (∃ d ∈ deps, dictFind (load_issues log) d = none) ∨
        (∃ v, dictFind (load_issues log) i = some v ∧
          ∀ d ∈ deps, d ∈ v.depends_on))) ∧
    (∀ log' added, add_dependency log ts i deps = Except.ok (log', added) →
      ∃ e : Event, log' = log ++ [e] ∧ e.type = "updated" ∧ e.id = i ∧ e.ts = ts ∧
        ∃ ds, e.depends_on = some ds) :=
  ⟨close_issue_error_iff log ts i r,
   fun log' h => close_issue_ok log ts i r log' h,
   add_dependency_error_iff log ts i deps,
   fun log' added h => add_dependency_ok log ts i deps log' added h⟩

/-- Witness for C8 at a concrete input: closing an unknown id errors, and
adding a dependency to the closed issue `dp-001` errors. -/
theorem c8_write_validation_witness :
    (∃ msg, close_issue [evCreateA] "2024-01-09T00:00:00Z" "zz-999" "done"
        = Except.error msg) ∧
    (∃ msg, add_dependency [evCreateA, evCloseA] "2024-01-09T00:00:00Z" "dp-001" ["dp-001"]
        = Except.error msg) :=
  ⟨(c8_write_validation [evCreateA] "2024-01-09T00:00:00Z" "zz-999" "done" []).1.mpr
      (Or.inl rfl),
   (c8_write_validation [evCreateA, evCloseA] "2024-01-09T00:00:00Z" "dp-001"
      "" ["dp-001"]).2.2.1.mpr
      (Or.inr (Or.inl ⟨closedIssueA, rfl, rfl⟩))⟩
